import Mathlib

/-!
Shallow embedding of ghostferry's binlog DML-event translator (`dml_events.go`) and the
replica catch-up coordinator, together with theorems settling the specification claims.

Modelling conventions:
* Go's `interface{}` row cells become the inductive `Value`, whose constructors are exactly
  the dynamic shapes the source dispatches on (signed/unsigned integers of each width,
  string, byte slice, bool, float32/float64, decimal, nil).
* A Go `[]byte` is `Option (List UInt8)`: `none` is the nil slice, `some l` a non-nil slice
  with contents `l` (so `some []` is the empty-but-non-nil slice, which Go distinguishes
  from nil via `vb == nil`).
* Functions that in Go return `(value, error)` or can panic return `GoResult`:
  `ok v` for a nil error, `errorWith v msg` for `return v, err` (the value returned
  alongside the error is kept, so "no partial result with an error" is a provable
  statement, not a modelling artefact), and `panicked msg` for a runtime panic.
* Machine integers are `Nat`/`Int`; Go's wrap-around conversions such as `uint64(v)`
  are explicit `% 2 ^ w`.
* `float32`/`float64`/`decimal.Decimal` cells carry, as their payload, the string that
  Go's formatter (`strconv.AppendFloat(_, v, 'g', -1, 64)` resp. `decimal.String()`)
  produces for them; the claims under verification never depend on float formatting
  itself, only on how the escape routine dispatches on these shapes.
-/

/-- Outcome of a Go call: `ok` (nil error), `errorWith` (the value returned alongside a
non-nil error, e.g. `return nil, err`), or `panicked` (runtime panic). -/
inductive GoResult (α : Type) where
  | ok (val : α) : GoResult α
  | errorWith (val : α) (msg : String) : GoResult α
  | panicked (msg : String) : GoResult α
  deriving DecidableEq, Repr

/-- A row cell: the dynamic shapes `dml_events.go` dispatches on. -/
inductive Value where
  | null : Value
  | int64 (v : Int) : Value
  | int32 (v : Int) : Value
  | int16 (v : Int) : Value
  | int8 (v : Int) : Value
  | goInt (v : Int) : Value
  | uint64 (v : Nat) : Value
  | uint32 (v : Nat) : Value
  | uint16 (v : Nat) : Value
  | uint8 (v : Nat) : Value
  | goUint (v : Nat) : Value
  | str (v : String) : Value
  | bytes (b : Option (List UInt8)) : Value
  | boolV (v : Bool) : Value
  | float64 (formatted : String) : Value
  | float32 (formatted : String) : Value
  | decimalV (decimalString : String) : Value
  deriving DecidableEq, Repr

/-- RowData is `[]interface{}` in the source. -/
abbrev RowData := List Value

/-- Model of `schema.TableColumn`: the fields the source uses. -/
structure Column where
  name : String
  isUnsigned : Bool
  deriving DecidableEq, Repr

/-- Model of `schema.Table`: the fields the source uses. -/
structure Table where
  schema : String
  name : String
  columns : List Column
  pkColumns : List Nat
  deriving DecidableEq, Repr

/-- Decimal digits of `n`, most significant first; model of the digit loop inside Go's
`strconv.AppendUint`. The first argument is recursion fuel; `formatUint` passes `n + 1`,
which always suffices because each recursive call divides `n` by 10. -/
def uintDigits : Nat → Nat → List Char
  | 0, _ => []
  | fuel + 1, n =>
    if n < 10 then [Char.ofNat (48 + n)]
    else uintDigits fuel (n / 10) ++ [Char.ofNat (48 + n % 10)]

/-- Model of `strconv.AppendUint(_, n, 10)` (the appended text). -/
def formatUint (n : Nat) : String := String.mk (uintDigits (n + 1) n)

/-- Model of `strconv.AppendInt(_, i, 10)` (the appended text). -/
def formatInt (i : Int) : String :=
  if i < 0 then "-" ++ formatUint (-i).toNat else formatUint i.toNat

/-- Accumulator loop of base-10 unsigned parsing: digits only, no sign, no other chars. -/
def parseDecDigits : List Char → Nat → Option Nat
  | [], acc => some acc
  | c :: rest, acc =>
    if 48 ≤ c.toNat ∧ c.toNat ≤ 57 then parseDecDigits rest (acc * 10 + (c.toNat - 48))
    else none

/-- Model of `strconv.ParseUint(s, 10, 64)`: `none` is the error case (empty input,
a non-digit character, or overflow past `2^64 - 1`). -/
def ParseUint64 (s : String) : Option Nat :=
  match s.data with
  | [] => none
  | l =>
    match parseDecDigits l 0 with
    | none => none
    | some v => if v < 2 ^ 64 then some v else none

/-- Go `string(byteSlice)`: bytes reinterpreted as text (each byte one char here; the
source only parses ASCII decimal strings through this conversion). -/
def bytesToChars (l : List UInt8) : List Char := l.map (fun b => Char.ofNat b.toNat)

def singleQuote : Char := Char.ofNat 39

def backtick : Char := Char.ofNat 96

/-- Model of `isNilValue`: the cell is the nil interface, or a `[]byte` that is the nil
slice (`vb == nil`); an empty-but-non-nil slice does NOT satisfy the second test. -/
def isNilValue : Value → Bool
  | .null => true
  | .bytes none => true
  | _ => false

/-- Model of `Uint64Value`: the `(uint64, bool)` widening type switch. -/
def Uint64Value : Value → Option Nat
  | .uint64 v => some v
  | .uint32 v => some v
  | .uint16 v => some v
  | .uint8 v => some v
  | .goUint v => some v
  | _ => none

/-- Model of `Int64Value`: the `(int64, bool)` widening type switch. -/
def Int64Value : Value → Option Int
  | .int64 v => some v
  | .int32 v => some v
  | .int16 v => some v
  | .int8 v => some v
  | .goInt v => some v
  | _ => none

/-- Single quotes doubled, character by character, as in the loop of `appendEscapedString`
(a 0x27 byte in UTF-8 text can only be the quote character itself, so the byte loop and
this character loop double exactly the same positions). -/
def escapeQuotes : List Char → List Char
  | [] => []
  | c :: rest =>
    if c = singleQuote then singleQuote :: singleQuote :: escapeQuotes rest
    else c :: escapeQuotes rest

/-- Bytes of a `[]byte` literal with every 0x27 doubled, as in `appendEscapedBuffer`. -/
def escapeBufferBytes : List UInt8 → List Char
  | [] => []
  | b :: rest =>
    if b.toNat = 39 then singleQuote :: singleQuote :: escapeBufferBytes rest
    else Char.ofNat b.toNat :: escapeBufferBytes rest

/-- Model of `appendEscapedString`. -/
def appendEscapedString (buffer : String) (value : String) : String :=
  buffer ++ "'" ++ String.mk (escapeQuotes value.data) ++ "'"

/-- Model of `appendEscapedBuffer`. -/
def appendEscapedBuffer (buffer : String) (value : List UInt8) : String :=
  buffer ++ "_binary'" ++ String.mk (escapeBufferBytes value) ++ "'"

/-- Model of `appendEscapedValue`. The final wildcard arm corresponds to cell shapes that
cannot reach the type switch: nil and nil `[]byte` are consumed by the `isNilValue`
branch and every integer shape by `Uint64Value`/`Int64Value`, so it is dead code here
(Go's `default: panic` fires only for dynamic types outside the modelled cell universe). -/
def appendEscapedValue (buffer : String) (value : Value) : String :=
  if isNilValue value then buffer ++ "NULL"
  else
    match Uint64Value value with
    | some uintv => buffer ++ formatUint uintv
    | none =>
      match Int64Value value with
      | some intv => buffer ++ formatInt intv
      | none =>
        match value with
        | .str v => appendEscapedString buffer v
        | .bytes b => appendEscapedBuffer buffer (b.getD [])
        | .boolV true => buffer ++ "1"
        | .boolV false => buffer ++ "0"
        | .float64 g => buffer ++ g
        | .float32 g => buffer ++ g
        | .decimalV d => appendEscapedString buffer d
        | _ => buffer

/-- Backticks doubled, character by character. -/
def escapeBackticks : List Char → List Char
  | [] => []
  | c :: rest =>
    if c = backtick then backtick :: backtick :: escapeBackticks rest
    else c :: escapeBackticks rest

/-- Modelled from the spec: `quoteField` belongs to this repository but is not under
`src/`. Per the spec, every identifier is wrapped in backticks and any backtick inside
the identifier is doubled. -/
def quoteField (field : String) : String :=
  "`" ++ String.mk (escapeBackticks field.data) ++ "`"

/-- Modelled from the spec: `QuotedTableNameFromString` belongs to this repository but is
not under `src/`. Per the spec, the qualified name is `` `schema`.`table` ``. -/
def QuotedTableNameFromString (database table : String) : String :=
  quoteField database ++ "." ++ quoteField table

/-- Model of Go's `strings.Join`. -/
def stringsJoin : List String → String → String
  | [], _ => ""
  | f :: fs, sep => fs.foldl (fun acc e => acc ++ sep ++ e) f

def indexOutOfRangeMsg : String := "runtime error: index out of range"

/-- Loop of `buildStringListForValues`: `i` is the running index (only its positivity is
observed, for the comma separator). -/
def buildStringListForValuesAux : List Value → Nat → String → String
  | [], _, buffer => buffer
  | value :: rest, i, buffer =>
    let buffer1 := if i > 0 then buffer ++ "," else buffer
    buildStringListForValuesAux rest (i + 1) (appendEscapedValue buffer1 value)

/-- Model of `buildStringListForValues`. -/
def buildStringListForValues (values : List Value) : String :=
  buildStringListForValuesAux values 0 ""

/-- Loop of `buildStringMapForWhere`: iterates `values` and indexes `columns[i]`, which
panics if `values` outruns `columns` (never the case at the call sites, where both come
from the same intersection computation). -/
def buildStringMapForWhereAux (columns : List String) : List Value → Nat → String → GoResult String
  | [], _, buffer => .ok buffer
  | value :: rest, i, buffer =>
    match columns.get? i with
    | none => .panicked indexOutOfRangeMsg
    | some colName =>
      let buffer1 := if i > 0 then buffer ++ " AND " else buffer
      let buffer2 := buffer1 ++ colName
      let buffer3 :=
        if isNilValue value then buffer2 ++ " IS NULL"
        else appendEscapedValue (buffer2 ++ "=") value
      buildStringMapForWhereAux columns rest (i + 1) buffer3

/-- Model of `buildStringMapForWhere`. -/
def buildStringMapForWhere (columns : List String) (values : List Value) : GoResult String :=
  buildStringMapForWhereAux columns values 0 ""

/-- Loop of `buildStringMapForSet`. -/
def buildStringMapForSetAux (columns : List String) : List Value → Nat → String → GoResult String
  | [], _, buffer => .ok buffer
  | value :: rest, i, buffer =>
    match columns.get? i with
    | none => .panicked indexOutOfRangeMsg
    | some colName =>
      let buffer1 := if i > 0 then buffer ++ "," else buffer
      let buffer2 := buffer1 ++ colName ++ "="
      buildStringMapForSetAux columns rest (i + 1) (appendEscapedValue buffer2 value)

/-- Model of `buildStringMapForSet`. -/
def buildStringMapForSet (columns : List String) (values : List Value) : GoResult String :=
  buildStringMapForSetAux columns values 0 ""

/-- Error text of the shared `fmt.Errorf` width-mismatch format (used both by
`NewBinlogDMLEvents` and by `verifyValuesHasTheSameLengthAsColumns`). -/
def columnsMismatchMsg (table : Table) (values : RowData) : String :=
  "table " ++ table.schema ++ "." ++ table.name ++ " has " ++
    formatUint table.columns.length ++ " columns but event has " ++
    formatUint values.length ++ " columns instead"

/-- Model of `verifyValuesHasTheSameLengthAsColumns` (`none` = nil error). -/
def verifyValuesHasTheSameLengthAsColumns (table : Table) (values : RowData) : Option String :=
  if table.columns.length ≠ values.length then some (columnsMismatchMsg table values) else none

/-- Panic text of the zero-columns check in `loadColumnsAndValuesInIntersection`. -/
def zeroColumnsMsg (table intersection : Table) : String :=
  "zero columns: table: " ++ formatUint table.columns.length ++
    ", intersection: " ++ formatUint intersection.columns.length

/-- Inner loop of the matching in `loadColumnsAndValuesInIntersection`: does the source
column's name appear in the intersection column list (find-first-and-break)? -/
def columnsMatch (intersectionColumns : List Column) (col : Column) : Bool :=
  intersectionColumns.any (fun targetCol => col.name == targetCol.name)

/-- Outer loop of `loadColumnsAndValuesInIntersection`: the `(source index, quoted name)`
pairs appended in source-column order, starting at index `colIdx`. -/
def matchedColumnsAux (intersectionColumns : List Column) : List Column → Nat → List (Nat × String)
  | [], _ => []
  | col :: rest, colIdx =>
    if columnsMatch intersectionColumns col then
      (colIdx, quoteField col.name) :: matchedColumnsAux intersectionColumns rest (colIdx + 1)
    else matchedColumnsAux intersectionColumns rest (colIdx + 1)

/-- Projection loop: `values[colIdx]` for every matched source index, in order. -/
def projectRow : List (Nat × String) → RowData → GoResult RowData
  | [], _ => .ok []
  | (colIdx, _) :: rest, values =>
    match values.get? colIdx with
    | none => .panicked indexOutOfRangeMsg
    | some v =>
      match projectRow rest values with
      | .ok vs => .ok (v :: vs)
      | .errorWith _ m => .errorWith [] m
      | .panicked m => .panicked m

/-- Verification-and-projection loop over `valuesToVerify`. -/
def projectRows (matched : List (Nat × String)) (table : Table) : List RowData → GoResult (List RowData)
  | [] => .ok []
  | values :: rest =>
    match verifyValuesHasTheSameLengthAsColumns table values with
    | some msg => .errorWith [] msg
    | none =>
      match projectRow matched values with
      | .ok projected =>
        match projectRows matched table rest with
        | .ok others => .ok (projected :: others)
        | .errorWith _ m => .errorWith [] m
        | .panicked m => .panicked m
      | .errorWith _ m => .errorWith [] m
      | .panicked m => .panicked m

/-- Model of `loadColumnsAndValuesInIntersection`. The source accumulates the index list
and the quoted-name list in two parallel slices; here they are the two components of the
`(Nat × String)` pairs. -/
def loadColumnsAndValuesInIntersection (table intersection : Table)
    (valuesToVerify : List RowData) : GoResult (List String × List RowData) :=
  if table.columns.length = 0 ∨ intersection.columns.length = 0 then
    .panicked (zeroColumnsMsg table intersection)
  else
    let matched := matchedColumnsAux intersection.columns table.columns 0
    match projectRows matched table valuesToVerify with
    | .ok list => .ok (matched.map Prod.snd, list)
    | .errorWith _ m => .errorWith ([], []) m
    | .panicked m => .panicked m

/-- Text of the panic raised by `reflect.Value.Int` when the cell's dynamic type is not a
signed-integer kind (e.g. `uint64`, string, nil). -/
def reflectIntPanicMsg : String := "reflect: call of reflect.Value.Int on non-int Value"

def unsignedPositionMsg (colIdx : Nat) : String :=
  "expected position " ++ formatUint colIdx ++ " in row to contain an unsigned number"

/-- Error text standing in for the `*strconv.NumError` returned by `ParseUint` (the model
does not distinguish its syntax and range variants; no claim depends on the text). -/
def parseUintErrMsg (s : String) : String :=
  "strconv.ParseUint: parsing " ++ s ++ ": invalid syntax"

/-- Model of `RowData.GetUint64`. A `[]byte` cell (nil or not) takes the string-parsing
path; a signed-integer cell takes the `reflect.ValueOf(...).Int()` path; any other shape
makes `reflect.Value.Int` panic, since its kind is not `Int/Int8/Int16/Int32/Int64`. -/
def GetUint64 (r : RowData) (colIdx : Nat) : GoResult Nat :=
  match r.get? colIdx with
  | none => .panicked indexOutOfRangeMsg
  | some v =>
    match v with
    | .bytes b =>
      let valueString := String.mk (bytesToChars (b.getD []))
      match ParseUint64 valueString with
      | none => .errorWith 0 (parseUintErrMsg valueString)
      | some res => .ok res
    | .int64 signedInt | .int32 signedInt | .int16 signedInt | .int8 signedInt
    | .goInt signedInt =>
      if signedInt < 0 then .errorWith 0 (unsignedPositionMsg colIdx) else .ok signedInt.toNat
    | _ => .panicked reflectIntPanicMsg

/-- Model of `DMLEventBase.pkFromEventData`. -/
def pkFromEventData (table : Table) (rowData : RowData) : GoResult Nat :=
  match verifyValuesHasTheSameLengthAsColumns table rowData with
  | some msg => .errorWith 0 msg
  | none =>
    match table.pkColumns.get? 0 with
    | none => .panicked indexOutOfRangeMsg
    | some pkIndex => GetUint64 rowData pkIndex

/-- The three statement classes behind the `DMLEvent` interface, each carrying its copy
of the table schema (`DMLEventBase`). -/
inductive DMLEvent where
  | BinlogInsertEvent (table : Table) (newValues : RowData) : DMLEvent
  | BinlogUpdateEvent (table : Table) (oldValues newValues : RowData) : DMLEvent
  | BinlogDeleteEvent (table : Table) (oldValues : RowData) : DMLEvent
  deriving DecidableEq, Repr

/-- OldValues dispatch (`nil` for INSERT is the empty row here). -/
def DMLEvent.OldValues : DMLEvent → RowData
  | .BinlogInsertEvent _ _ => []
  | .BinlogUpdateEvent _ oldValues _ => oldValues
  | .BinlogDeleteEvent _ oldValues => oldValues

/-- NewValues dispatch (`nil` for DELETE is the empty row here). -/
def DMLEvent.NewValues : DMLEvent → RowData
  | .BinlogInsertEvent _ newValues => newValues
  | .BinlogUpdateEvent _ _ newValues => newValues
  | .BinlogDeleteEvent _ _ => []

/-- PK dispatch: new image for INSERT and UPDATE, old image for DELETE. -/
def DMLEvent.PK : DMLEvent → GoResult Nat
  | .BinlogInsertEvent table newValues => pkFromEventData table newValues
  | .BinlogUpdateEvent table _ newValues => pkFromEventData table newValues
  | .BinlogDeleteEvent table oldValues => pkFromEventData table oldValues

/-- Model of `BinlogInsertEvent.AsSQLString`. -/
def binlogInsertAsSQLString (table : Table) (newValues : RowData)
    (intersection : Table) : GoResult String :=
  match loadColumnsAndValuesInIntersection table intersection [newValues] with
  | .errorWith _ msg => .errorWith "" msg
  | .panicked m => .panicked m
  | .ok (columns, values) =>
    match values.get? 0 with
    | none => .panicked indexOutOfRangeMsg
    | some values0 =>
      .ok ("INSERT IGNORE INTO " ++ QuotedTableNameFromString intersection.schema intersection.name ++
        " (" ++ stringsJoin columns "," ++ ")" ++
        " VALUES (" ++ buildStringListForValues values0 ++ ")")

/-- Model of `BinlogUpdateEvent.AsSQLString`: the SET list is built from `values[1]`
(the projected new image) and the WHERE list from `values[0]` (the projected old image).
The builders only produce `ok` or `panicked`; their `errorWith` arms are dead. -/
def binlogUpdateAsSQLString (table : Table) (oldValues newValues : RowData)
    (intersection : Table) : GoResult String :=
  match loadColumnsAndValuesInIntersection table intersection [oldValues, newValues] with
  | .errorWith _ msg => .errorWith "" msg
  | .panicked m => .panicked m
  | .ok (columns, values) =>
    match values.get? 1 with
    | none => .panicked indexOutOfRangeMsg
    | some newVals =>
      match values.get? 0 with
      | none => .panicked indexOutOfRangeMsg
      | some oldVals =>
        match buildStringMapForSet columns newVals with
        | .errorWith _ m => .errorWith "" m
        | .panicked m => .panicked m
        | .ok setClause =>
          match buildStringMapForWhere columns oldVals with
          | .errorWith _ m => .errorWith "" m
          | .panicked m => .panicked m
          | .ok whereClause =>
            .ok ("UPDATE " ++ QuotedTableNameFromString intersection.schema intersection.name ++
              " SET " ++ setClause ++ " WHERE " ++ whereClause)

/-- Model of `BinlogDeleteEvent.AsSQLString`. -/
def binlogDeleteAsSQLString (table : Table) (oldValues : RowData)
    (intersection : Table) : GoResult String :=
  match loadColumnsAndValuesInIntersection table intersection [oldValues] with
  | .errorWith _ msg => .errorWith "" msg
  | .panicked m => .panicked m
  | .ok (columns, values) =>
    match values.get? 0 with
    | none => .panicked indexOutOfRangeMsg
    | some values0 =>
      match buildStringMapForWhere columns values0 with
      | .errorWith _ m => .errorWith "" m
      | .panicked m => .panicked m
      | .ok whereClause =>
        .ok ("DELETE FROM " ++ QuotedTableNameFromString intersection.schema intersection.name ++
          " WHERE " ++ whereClause)

/-- AsSQLString dispatch. -/
def DMLEvent.AsSQLString (e : DMLEvent) (intersection : Table) : GoResult String :=
  match e with
  | .BinlogInsertEvent table newValues => binlogInsertAsSQLString table newValues intersection
  | .BinlogUpdateEvent table oldValues newValues =>
      binlogUpdateAsSQLString table oldValues newValues intersection
  | .BinlogDeleteEvent table oldValues => binlogDeleteAsSQLString table oldValues intersection

/-- Binlog row-event type tags dispatched on by `NewBinlogDMLEvents`. -/
inductive EventType where
  | WRITE_ROWS_EVENTv1 : EventType
  | WRITE_ROWS_EVENTv2 : EventType
  | UPDATE_ROWS_EVENTv1 : EventType
  | UPDATE_ROWS_EVENTv2 : EventType
  | DELETE_ROWS_EVENTv1 : EventType
  | DELETE_ROWS_EVENTv2 : EventType
  | unrecognized (tag : String) : EventType
  deriving DecidableEq, Repr

/-- Model of `NewBinlogInsertEvents` (always a nil error). -/
def NewBinlogInsertEvents (table : Table) (rows : List RowData) : GoResult (List DMLEvent) :=
  .ok (rows.map (DMLEvent.BinlogInsertEvent table))

/-- Model of `NewBinlogDeleteEvents` (always a nil error). -/
def NewBinlogDeleteEvents (table : Table) (rows : List RowData) : GoResult (List DMLEvent) :=
  .ok (rows.map (DMLEvent.BinlogDeleteEvent table))

/-- Loop of `NewBinlogUpdateEvents`: `for i, row := range rows`, skipping odd `i`, and at
even `i` reading `rows[i+1]` (a panic when out of range — evaluated first, in Go's phase-1
operand evaluation) and writing at `updateEvents[i/2]` (also a panic when out of range).
The first list argument stays the whole row list; the second is the suffix still to be
iterated, `rows.drop i`. -/
def NewBinlogUpdateEventsLoop (table : Table) (rows : List RowData) :
    List RowData → Nat → List DMLEvent → GoResult (List DMLEvent)
  | [], _, updateEvents => .ok updateEvents
  | row :: rest, i, updateEvents =>
    if i % 2 == 1 then NewBinlogUpdateEventsLoop table rows rest (i + 1) updateEvents
    else
      match rows.get? (i + 1) with
      | none => .panicked indexOutOfRangeMsg
      | some newRow =>
        if i / 2 < updateEvents.length then
          NewBinlogUpdateEventsLoop table rows rest (i + 1)
            (updateEvents.set (i / 2) (DMLEvent.BinlogUpdateEvent table row newRow))
        else .panicked indexOutOfRangeMsg

/-- Model of `NewBinlogUpdateEvents`: `make([]DMLEvent, len(rows)/2)` then the pairing
loop. The replicate placeholder models the zero-valued slots of `make`; every slot is
overwritten before any successful return. -/
def NewBinlogUpdateEvents (table : Table) (rows : List RowData) : GoResult (List DMLEvent) :=
  NewBinlogUpdateEventsLoop table rows rows 0
    (List.replicate (rows.length / 2) (DMLEvent.BinlogUpdateEvent table [] []))

/-- Unsigned type normalization of one cell (`NewBinlogDMLEvents`' inner switch): in an
unsigned column a signed integer of width W is converted by Go's `uintW(v)`, i.e. reduced
modulo `2^W`; every other cell passes through unchanged. -/
def normalizeCell (col : Column) (v : Value) : Value :=
  if col.isUnsigned then
    match v with
    | .int64 n => .uint64 ((n % (2 : Int) ^ 64).toNat)
    | .int32 n => .uint32 ((n % (2 : Int) ^ 32).toNat)
    | .int16 n => .uint16 ((n % (2 : Int) ^ 16).toNat)
    | .int8 n => .uint8 ((n % (2 : Int) ^ 8).toNat)
    | .goInt n => .goUint ((n % (2 : Int) ^ 64).toNat)
    | other => other
  else v

/-- In-place normalization of one row (`for i, col := range table.Columns`); only called
after the row width has been checked equal to the column count. -/
def normalizeRow (columns : List Column) (row : RowData) : RowData :=
  List.zipWith normalizeCell columns row

/-- The per-row loop of `NewBinlogDMLEvents`: width check, then in-place normalization.
Returns the final state of the row buffers (rows before the offending one are already
normalized when an error cuts the loop short) and the error, if any. -/
def checkAndNormalizeRows (table : Table) : List RowData → List RowData × Option String
  | [] => ([], none)
  | row :: rest =>
    if table.columns.length ≠ row.length then
      (row :: rest, some (columnsMismatchMsg table row))
    else
      let row2 := normalizeRow table.columns row
      let result := checkAndNormalizeRows table rest
      (row2 :: result.1, result.2)

/-- Model of `NewBinlogDMLEvents`. The first component is the final state of
`rowsEvent.Rows` (the function mutates the rows in place); the second the returned
`([]DMLEvent, error)`. -/
def NewBinlogDMLEvents (table : Table) (eventType : EventType) (rows : List RowData) :
    List RowData × GoResult (List DMLEvent) :=
  let checked := checkAndNormalizeRows table rows
  match checked.2 with
  | some msg => (checked.1, .errorWith [] msg)
  | none =>
    match eventType with
    | .WRITE_ROWS_EVENTv1 | .WRITE_ROWS_EVENTv2 =>
        (checked.1, NewBinlogInsertEvents table checked.1)
    | .DELETE_ROWS_EVENTv1 | .DELETE_ROWS_EVENTv2 =>
        (checked.1, NewBinlogDeleteEvents table checked.1)
    | .UPDATE_ROWS_EVENTv1 | .UPDATE_ROWS_EVENTv2 =>
        (checked.1, NewBinlogUpdateEvents table checked.1)
    | .unrecognized tag => (checked.1, .errorWith [] ("unrecognized rows event: " ++ tag))

/-- Binlog position `(file name, uint32 offset)`. -/
structure Position where
  name : String
  pos : Nat
  deriving DecidableEq, Repr

/-- Go's `<` on strings: bytewise lexicographic comparison (on UTF-8 text this coincides
with the character-wise comparison used here, since UTF-8 preserves code-point order). -/
def goStringLt : List Char → List Char → Bool
  | [], [] => false
  | [], _ :: _ => true
  | _ :: _, [] => false
  | a :: as, b :: bs => if a < b then true else if b < a then false else goStringLt as bs

/-- Modelled from the spec: `mysql.Position.Compare` lives in the external go-mysql
library (an out-of-scope collaborator). Per the spec the ordering is total,
lexicographic on the file name and then numeric on the offset; the library compares
`Name` with Go string `>`/`<` and then `Pos` numerically, which is that ordering. -/
def Position.Compare (p o : Position) : Int :=
  if goStringLt o.name.data p.name.data then 1
  else if goStringLt p.name.data o.name.data then -1
  else if o.pos < p.pos then 1
  else if p.pos < o.pos then -1
  else 0

/-- Model of `WaitUntilReplicaIsCaughtUpToMaster.IsCaughtUp`, with the outcome of the
retry-wrapped fetch passed in (`WithRetries` is repository code outside `src/`; per the
spec it surfaces the fetch's result, or the last error on exhaustion). On a fetch error
the method returns `(false, err)`; otherwise it compares the replica's replicated master
position against the recorded target. -/
def IsCaughtUp (targetMasterPos : Position) (fetchResult : Except String Position) : GoResult Bool :=
  match fetchResult with
  | .error e => .errorWith false e
  | .ok currentReplicatedMasterPos =>
    if Position.Compare currentReplicatedMasterPos targetMasterPos ≥ 0 then .ok true
    else .ok false

-- Sanity checks of the model on concrete inputs (spec scenarios).

example : formatUint 0 = "0" := by decide

example : formatInt (-12) = "-12" := by decide

example : appendEscapedValue "" (Value.str "O'Brien") = "'O''Brien'" := by decide

example : appendEscapedValue "" Value.null = "NULL" := by decide

example : appendEscapedValue "" (Value.bytes none) = "NULL" := by decide

example : appendEscapedValue "" (Value.bytes (some [65, 39, 66])) = "_binary'A''B'" := by decide

example : GetUint64 [Value.bytes (some [49, 50, 51, 52, 53])] 0 = .ok 12345 := by decide

example : quoteField "a`b" = "`a``b`" := by decide

-- Concrete claim scenarios (sanity checks; the claim theorems below build on these).

example :
    binlogUpdateAsSQLString (Table.mk "s" "t" [Column.mk "id" false, Column.mk "name" false] [0])
      [Value.int64 1, Value.null] [Value.int64 1, Value.str "a"]
      (Table.mk "s" "t" [Column.mk "id" false, Column.mk "name" false] [0]) =
      .ok "UPDATE `s`.`t` SET `id`=1,`name`='a' WHERE `id`=1 AND `name` IS NULL" := by decide

example :
    NewBinlogDMLEvents (Table.mk "s" "t" [Column.mk "id" true] [0]) .WRITE_ROWS_EVENTv1
      [[Value.int64 (-1)]] =
      ([[Value.uint64 18446744073709551615]],
        .ok [DMLEvent.BinlogInsertEvent (Table.mk "s" "t" [Column.mk "id" true] [0])
          [Value.uint64 18446744073709551615]]) := by decide

example :
    binlogInsertAsSQLString (Table.mk "s" "t" [Column.mk "id" true] [0])
      [Value.uint64 18446744073709551615] (Table.mk "s" "t" [Column.mk "id" true] [0]) =
      .ok "INSERT IGNORE INTO `s`.`t` (`id`) VALUES (18446744073709551615)" := by decide

example :
    binlogInsertAsSQLString
      (Table.mk "s" "t" [Column.mk "a" false, Column.mk "b" false, Column.mk "c" false] [0])
      [Value.int64 1, Value.int64 2, Value.int64 3]
      (Table.mk "s" "t" [Column.mk "a" false, Column.mk "c" false] [0]) =
      .ok "INSERT IGNORE INTO `s`.`t` (`a`,`c`) VALUES (1,3)" := by decide

example : GetUint64 [Value.uint64 5] 0 = .panicked reflectIntPanicMsg := by decide

example :
    DMLEvent.PK (DMLEvent.BinlogInsertEvent (Table.mk "s" "t" [Column.mk "id" true] [0])
      [Value.uint64 5]) = .panicked reflectIntPanicMsg := by decide

example : appendEscapedValue "" (Value.bytes (some [])) = "_binary''" := by decide

example : buildStringMapForWhere ["`c`"] [Value.bytes (some [])] = .ok "`c`=_binary''" := by decide

example :
    NewBinlogUpdateEvents (Table.mk "s" "t" [Column.mk "id" false] [0])
      [[Value.int64 1], [Value.int64 2], [Value.int64 3]] = .panicked indexOutOfRangeMsg := by
  decide

example :
    NewBinlogUpdateEvents (Table.mk "s" "t" [Column.mk "id" false] [0])
      [[Value.int64 1], [Value.int64 2], [Value.int64 3], [Value.int64 4]] =
      .ok [DMLEvent.BinlogUpdateEvent (Table.mk "s" "t" [Column.mk "id" false] [0])
          [Value.int64 1] [Value.int64 2],
        DMLEvent.BinlogUpdateEvent (Table.mk "s" "t" [Column.mk "id" false] [0])
          [Value.int64 3] [Value.int64 4]] := by decide

example :
    loadColumnsAndValuesInIntersection (Table.mk "s" "t" [Column.mk "a" false] [0])
      (Table.mk "s" "t" [] []) [[Value.int64 1]] =
      .panicked "zero columns: table: 1, intersection: 0" := by decide

example :
    IsCaughtUp (Position.mk "mysql-bin.000007" 4096)
      (.ok (Position.mk "mysql-bin.000007" 4000)) = .ok false := by decide

example :
    IsCaughtUp (Position.mk "mysql-bin.000007" 4096)
      (.ok (Position.mk "mysql-bin.000007" 5000)) = .ok true := by decide

example :
    IsCaughtUp (Position.mk "mysql-bin.000008" 4096)
      (.ok (Position.mk "mysql-bin.000009" 4)) = .ok true := by decide

/-! Specification-side definitions: restatements, in the spec's vocabulary, of what the
rendering loops produce. The refinement lemmas below connect them to the loop models. -/

/-- One WHERE fragment per the spec: a column whose (old) value is NULL contributes
`col IS NULL`, any other column contributes `col=<escaped value>`. -/
def whereFragment (colName : String) (v : Value) : String :=
  if isNilValue v then colName ++ " IS NULL" else colName ++ "=" ++ appendEscapedValue "" v

/-- One SET fragment per the spec: `col=<escaped value>`. -/
def setFragment (colName : String) (v : Value) : String :=
  colName ++ "=" ++ appendEscapedValue "" v

/-- The escaped literal of one cell. -/
def valueFragment (v : Value) : String := appendEscapedValue "" v

def andChain : List String → String
  | [] => ""
  | f :: fs => " AND " ++ f ++ andChain fs

/-- Fragments joined with `" AND "`. -/
def joinWithAnd : List String → String
  | [] => ""
  | f :: fs => f ++ andChain fs

def commaChain : List String → String
  | [] => ""
  | f :: fs => "," ++ f ++ commaChain fs

/-- Fragments joined with `","`. -/
def joinWithComma : List String → String
  | [] => ""
  | f :: fs => f ++ commaChain fs

/-- The matched columns per the spec: `(source index, column)` for each source column
whose name appears in the intersection, preserving source order. -/
def specMatched (tableColumns intersectionColumns : List Column) : List (Nat × Column) :=
  tableColumns.enum.filter (fun p => columnsMatch intersectionColumns p.2)

/-- The quoted names of the matched columns, in source order. -/
def specIntersectionNames (tableColumns intersectionColumns : List Column) : List String :=
  (specMatched tableColumns intersectionColumns).map (fun p => quoteField p.2.name)

/-- A row image reduced to the cells at the matched source indices. -/
def specProjectRow (tableColumns intersectionColumns : List Column) (row : RowData) : RowData :=
  (specMatched tableColumns intersectionColumns).map (fun p => row.getD p.1 Value.null)

/-- The UPDATE statements the spec ascribes to a 2N-row UPDATE event: one per
`(before, after)` pair, in input order. -/
def specUpdatePairs (table : Table) : List RowData → List DMLEvent
  | oldRow :: newRow :: rest =>
      DMLEvent.BinlogUpdateEvent table oldRow newRow :: specUpdatePairs table rest
  | _ => []

/-- Integer-shaped cells (signed or unsigned, any width). -/
def isIntegerValue : Value → Bool
  | .int64 _ | .int32 _ | .int16 _ | .int8 _ | .goInt _ => true
  | .uint64 _ | .uint32 _ | .uint16 _ | .uint8 _ | .goUint _ => true
  | _ => false

/-! Helper lemmas. -/

/-- Every branch of the escape routine appends to its buffer, so the buffer splits off. -/
lemma appendEscapedValue_eq_append (buffer : String) (v : Value) :
    appendEscapedValue buffer v = buffer ++ appendEscapedValue "" v := by
  cases v
  case bytes b =>
    cases b <;>
      simp [appendEscapedValue, isNilValue, Uint64Value, Int64Value, appendEscapedBuffer,
        appendEscapedString, String.empty_append, String.append_assoc]
  case boolV bv =>
    cases bv <;>
      simp [appendEscapedValue, isNilValue, Uint64Value, Int64Value, String.empty_append,
        String.append_assoc]
  all_goals
    simp [appendEscapedValue, isNilValue, Uint64Value, Int64Value, appendEscapedString,
      String.empty_append, String.append_assoc]


/-- The WHERE loop from a positive index appends one `" AND "`-prefixed fragment per
remaining value, reading column names from the matching tail of `columns`. -/
lemma buildStringMapForWhereAux_spec (columns : List String) :
    ∀ (values : List Value) (i : Nat) (buffer : String), 0 < i →
      i + values.length ≤ columns.length →
      buildStringMapForWhereAux columns values i buffer =
        .ok (buffer ++ andChain (List.zipWith whereFragment (columns.drop i) values)) := by
  intro values
  induction values with
  | nil =>
    intro i buffer _ _
    simp [buildStringMapForWhereAux, andChain, String.append_empty]
  | cons v vs ih =>
    intro i buffer hi hlen
    have hilt : i < columns.length := by
      simp only [List.length_cons] at hlen; omega
    have hc : columns.get? i = some (columns.get ⟨i, hilt⟩) := List.get?_eq_get hilt
    have hdrop : columns.drop i = columns.get ⟨i, hilt⟩ :: columns.drop (i + 1) :=
      List.drop_eq_getElem_cons hilt
    have hrest : i + 1 + vs.length ≤ columns.length := by
      simp only [List.length_cons] at hlen; omega
    simp only [buildStringMapForWhereAux, hc]
    rw [if_pos hi]
    by_cases hnil : isNilValue v
    · rw [if_pos hnil, ih (i + 1) _ (by omega) hrest, hdrop]
      simp [andChain, whereFragment, hnil, String.append_assoc]
    · rw [if_neg hnil, ih (i + 1) _ (by omega) hrest, hdrop,
        appendEscapedValue_eq_append (buffer ++ " AND " ++ columns.get ⟨i, hilt⟩ ++ "=")]
      simp [andChain, whereFragment, hnil, String.append_assoc]

/-- First step of the WHERE loop (index 0: no separator). -/
lemma buildStringMapForWhereAux_zero (columns : List String) (c : String) (v : Value)
    (vs : List Value) (hc : columns.get? 0 = some c) :
    buildStringMapForWhereAux columns (v :: vs) 0 "" =
      buildStringMapForWhereAux columns vs 1
        (if isNilValue v then c ++ " IS NULL" else appendEscapedValue (c ++ "=") v) := by
  have hc2 : columns[0]? = some c := by simpa [List.get?_eq_getElem?] using hc
  simp [buildStringMapForWhereAux, hc2, String.empty_append]

/-- Model-to-spec refinement of `buildStringMapForWhere`: with at least as many columns
as values it renders the `" AND "`-joined per-column fragments. -/
lemma buildStringMapForWhere_spec (columns : List String) (values : List Value)
    (h : values.length ≤ columns.length) :
    buildStringMapForWhere columns values =
      .ok (joinWithAnd (List.zipWith whereFragment columns values)) := by
  cases values with
  | nil => simp [buildStringMapForWhere, buildStringMapForWhereAux, joinWithAnd]
  | cons v vs =>
    cases columns with
    | nil => simp at h
    | cons c cs =>
      have hrest : 1 + vs.length ≤ (c :: cs).length := by
        simp only [List.length_cons] at h ⊢; omega
      rw [buildStringMapForWhere, buildStringMapForWhereAux_zero (c :: cs) c v vs rfl]
      by_cases hnil : isNilValue v
      · rw [if_pos hnil, buildStringMapForWhereAux_spec (c :: cs) vs 1 _ (by omega) hrest]
        simp [joinWithAnd, whereFragment, hnil, String.append_assoc]
      · rw [if_neg hnil, buildStringMapForWhereAux_spec (c :: cs) vs 1 _ (by omega) hrest,
          appendEscapedValue_eq_append (c ++ "=")]
        simp [joinWithAnd, whereFragment, hnil, String.append_assoc]

/-- The SET loop from a positive index appends one `","`-prefixed fragment per value. -/
lemma buildStringMapForSetAux_spec (columns : List String) :
    ∀ (values : List Value) (i : Nat) (buffer : String), 0 < i →
      i + values.length ≤ columns.length →
      buildStringMapForSetAux columns values i buffer =
        .ok (buffer ++ commaChain (List.zipWith setFragment (columns.drop i) values)) := by
  intro values
  induction values with
  | nil =>
    intro i buffer _ _
    simp [buildStringMapForSetAux, commaChain, String.append_empty]
  | cons v vs ih =>
    intro i buffer hi hlen
    have hilt : i < columns.length := by
      simp only [List.length_cons] at hlen; omega
    have hc : columns.get? i = some (columns.get ⟨i, hilt⟩) := List.get?_eq_get hilt
    have hdrop : columns.drop i = columns.get ⟨i, hilt⟩ :: columns.drop (i + 1) :=
      List.drop_eq_getElem_cons hilt
    have hrest : i + 1 + vs.length ≤ columns.length := by
      simp only [List.length_cons] at hlen; omega
    simp only [buildStringMapForSetAux, hc]
    rw [if_pos hi, ih (i + 1) _ (by omega) hrest, hdrop,
      appendEscapedValue_eq_append (buffer ++ "," ++ columns.get ⟨i, hilt⟩ ++ "=")]
    simp [commaChain, setFragment, String.append_assoc]

/-- First step of the SET loop (index 0: no separator). -/
lemma buildStringMapForSetAux_zero (columns : List String) (c : String) (v : Value)
    (vs : List Value) (hc : columns.get? 0 = some c) :
    buildStringMapForSetAux columns (v :: vs) 0 "" =
      buildStringMapForSetAux columns vs 1 (appendEscapedValue (c ++ "=") v) := by
  have hc2 : columns[0]? = some c := by simpa [List.get?_eq_getElem?] using hc
  simp [buildStringMapForSetAux, hc2, String.empty_append]

/-- Model-to-spec refinement of `buildStringMapForSet`. -/
lemma buildStringMapForSet_spec (columns : List String) (values : List Value)
    (h : values.length ≤ columns.length) :
    buildStringMapForSet columns values =
      .ok (joinWithComma (List.zipWith setFragment columns values)) := by
  cases values with
  | nil => simp [buildStringMapForSet, buildStringMapForSetAux, joinWithComma]
  | cons v vs =>
    cases columns with
    | nil => simp at h
    | cons c cs =>
      have hrest : 1 + vs.length ≤ (c :: cs).length := by
        simp only [List.length_cons] at h ⊢; omega
      rw [buildStringMapForSet, buildStringMapForSetAux_zero (c :: cs) c v vs rfl,
        buildStringMapForSetAux_spec (c :: cs) vs 1 _ (by omega) hrest,
        appendEscapedValue_eq_append (c ++ "=")]
      simp [joinWithComma, setFragment, String.append_assoc]

/-- The VALUES loop from a positive index appends one `","`-prefixed literal per value. -/
lemma buildStringListForValuesAux_spec :
    ∀ (values : List Value) (i : Nat) (buffer : String), 0 < i →
      buildStringListForValuesAux values i buffer =
        buffer ++ commaChain (values.map valueFragment) := by
  intro values
  induction values with
  | nil =>
    intro i buffer _
    simp [buildStringListForValuesAux, commaChain, String.append_empty]
  | cons v vs ih =>
    intro i buffer hi
    simp only [buildStringListForValuesAux]
    rw [if_pos hi, ih (i + 1) _ (by omega),
      appendEscapedValue_eq_append (buffer ++ ",")]
    simp [commaChain, valueFragment, String.append_assoc]

/-- Model-to-spec refinement of `buildStringListForValues`. -/
lemma buildStringListForValues_spec (values : List Value) :
    buildStringListForValues values = joinWithComma (values.map valueFragment) := by
  cases values with
  | nil => simp [buildStringListForValues, buildStringListForValuesAux, joinWithComma]
  | cons v vs =>
    rw [buildStringListForValues]
    simp only [buildStringListForValuesAux]
    rw [if_neg (by omega), buildStringListForValuesAux_spec vs 1 _ (by omega),
      appendEscapedValue_eq_append ""]
    simp [joinWithComma, valueFragment, String.empty_append]

/-- Go's `strings.Join` with `","` is the comma-joined list. -/
lemma stringsJoin_comma (l : List String) : stringsJoin l "," = joinWithComma l := by
  cases l with
  | nil => rfl
  | cons f fs =>
    rw [stringsJoin, joinWithComma]
    induction fs generalizing f with
    | nil => simp [commaChain, String.append_empty]
    | cons g gs ih =>
      rw [List.foldl_cons, commaChain]
      rw [ih (f ++ "," ++ g)]
      simp [String.append_assoc]

/-- The matching loop agrees with filtering the enumerated source columns. -/
lemma matchedColumnsAux_eq (inter : List Column) :
    ∀ (cols : List Column) (k : Nat),
      matchedColumnsAux inter cols k =
        ((List.enumFrom k cols).filter (fun p => columnsMatch inter p.2)).map
          (fun p => (p.1, quoteField p.2.name)) := by
  intro cols
  induction cols with
  | nil => intro k; simp [matchedColumnsAux]
  | cons c rest ih =>
    intro k
    by_cases h : columnsMatch inter c <;>
      simp [matchedColumnsAux, List.enumFrom, List.filter_cons, h, ih (k + 1)]

/-- Every matched source index is below the start offset plus the column count. -/
lemma matchedColumnsAux_lt (inter : List Column) :
    ∀ (cols : List Column) (k : Nat) (p : Nat × String),
      p ∈ matchedColumnsAux inter cols k → p.1 < k + cols.length := by
  intro cols
  induction cols with
  | nil => intro k p hp; simp [matchedColumnsAux] at hp
  | cons c rest ih =>
    intro k p hp
    by_cases h : columnsMatch inter c
    · rw [matchedColumnsAux, if_pos h] at hp
      rcases List.mem_cons.mp hp with hp | hp
      · subst hp; simp
      · have := ih (k + 1) p hp
        simp at this ⊢; omega
    · rw [matchedColumnsAux, if_neg h] at hp
      have := ih (k + 1) p hp
      simp at this ⊢; omega

/-- Projection succeeds and picks the cell at each matched index when all indices are
within the row. -/
lemma projectRow_spec :
    ∀ (matched : List (Nat × String)) (row : RowData),
      (∀ p ∈ matched, p.1 < row.length) →
      projectRow matched row = .ok (matched.map (fun p => row.getD p.1 Value.null)) := by
  intro matched
  induction matched with
  | nil => intro row _; simp [projectRow]
  | cons p rest ih =>
    intro row h
    obtain ⟨i, s⟩ := p
    have hi : i < row.length := h (i, s) (List.mem_cons_self _ _)
    have hget : row.get? i = some (row.get ⟨i, hi⟩) := List.get?_eq_get hi
    have hrest := ih row (fun q hq => h q (List.mem_cons_of_mem _ hq))
    simp [projectRow, hget, hrest, List.getD, List.getElem?_eq_getElem hi]

/-- Verification-and-projection over the row list: with correct widths, each row is
reduced to the matched cells. -/
lemma projectRows_spec (matched : List (Nat × String)) (table : Table) :
    ∀ (rowsIn : List RowData),
      (∀ row ∈ rowsIn, row.length = table.columns.length) →
      (∀ p ∈ matched, p.1 < table.columns.length) →
      projectRows matched table rowsIn =
        .ok (rowsIn.map (fun row => matched.map (fun p => row.getD p.1 Value.null))) := by
  intro rowsIn
  induction rowsIn with
  | nil => intro _ _; simp [projectRows]
  | cons row rest ih =>
    intro hw hm
    have hwr : row.length = table.columns.length := hw row (List.mem_cons_self _ _)
    have hverify : verifyValuesHasTheSameLengthAsColumns table row = none := by
      simp [verifyValuesHasTheSameLengthAsColumns, hwr]
    have hproj := projectRow_spec matched row (fun p hp => by rw [hwr]; exact hm p hp)
    have hrest := ih (fun r hr => hw r (List.mem_cons_of_mem _ hr)) hm
    simp [projectRows, hverify, hproj, hrest]

/-- Model-to-spec refinement of `loadColumnsAndValuesInIntersection`: with nonempty
column lists and correct row widths, it returns the quoted matched names in source order
and each row reduced to the matched source indices. -/
lemma loadColumns_spec (table intersection : Table) (rowsIn : List RowData)
    (h1 : table.columns.length ≠ 0) (h2 : intersection.columns.length ≠ 0)
    (h3 : ∀ row ∈ rowsIn, row.length = table.columns.length) :
    loadColumnsAndValuesInIntersection table intersection rowsIn =
      .ok (specIntersectionNames table.columns intersection.columns,
        rowsIn.map (specProjectRow table.columns intersection.columns)) := by
  have hcond : ¬ (table.columns.length = 0 ∨ intersection.columns.length = 0) := by omega
  have hbound : ∀ p ∈ matchedColumnsAux intersection.columns table.columns 0,
      p.1 < table.columns.length := by
    intro p hp
    have := matchedColumnsAux_lt intersection.columns table.columns 0 p hp
    omega
  have hload := projectRows_spec (matchedColumnsAux intersection.columns table.columns 0)
    table rowsIn h3 hbound
  have hmap : (matchedColumnsAux intersection.columns table.columns 0).map Prod.snd =
      specIntersectionNames table.columns intersection.columns := by
    rw [matchedColumnsAux_eq, specIntersectionNames, specMatched, List.map_map, List.enum]
    simp [Function.comp]
  have hproj : ∀ row : RowData,
      (matchedColumnsAux intersection.columns table.columns 0).map
        (fun p => row.getD p.1 Value.null) =
        specProjectRow table.columns intersection.columns row := by
    intro row
    rw [matchedColumnsAux_eq, specProjectRow, specMatched, List.map_map, List.enum]
    simp [Function.comp]
  have hfun : (fun row : RowData => (matchedColumnsAux intersection.columns table.columns 0).map
      (fun p => row.getD p.1 Value.null)) = specProjectRow table.columns intersection.columns :=
    funext hproj
  rw [loadColumnsAndValuesInIntersection, if_neg hcond]
  simp only [hload, hmap, hfun]

/-- A decimal digit character has code between 48 and 57. -/
lemma digitCharBounds (d : Nat) (hd : d < 10) :
    48 ≤ (Char.ofNat (48 + d)).toNat ∧ (Char.ofNat (48 + d)).toNat ≤ 57 := by
  interval_cases d <;> decide

/-- Every character emitted by the digit loop is a decimal digit. -/
lemma uintDigits_bounds :
    ∀ (fuel n : Nat), ∀ c ∈ uintDigits fuel n, 48 ≤ c.toNat ∧ c.toNat ≤ 57 := by
  intro fuel
  induction fuel with
  | zero => intro n c hc; simp [uintDigits] at hc
  | succ fuel ih =>
    intro n c hc
    rw [uintDigits] at hc
    by_cases h : n < 10
    · rw [if_pos h] at hc
      simp at hc
      subst hc
      exact digitCharBounds n h
    · rw [if_neg h] at hc
      rcases List.mem_append.mp hc with hc | hc
      · exact ih _ c hc
      · simp at hc
        subst hc
        exact digitCharBounds _ (Nat.mod_lt _ (by norm_num))

/-- The digit loop with positive fuel emits at least one character. -/
lemma uintDigits_ne_nil (fuel n : Nat) : uintDigits (fuel + 1) n ≠ [] := by
  rw [uintDigits]
  split <;> simp

/-- An unsigned decimal rendering neither starts with nor contains a minus sign. -/
lemma formatUint_no_minus (n : Nat) :
    (formatUint n).data.head? ≠ some '-' ∧ '-' ∉ (formatUint n).data := by
  have h45 : ('-').toNat = 45 := by decide
  have hmem : '-' ∉ uintDigits (n + 1) n := by
    intro hm
    have := uintDigits_bounds (n + 1) n _ hm
    omega
  constructor
  · cases hl : uintDigits (n + 1) n with
    | nil => exact absurd hl (uintDigits_ne_nil n n)
    | cons a as =>
      simp only [formatUint, hl]
      intro hcontra
      simp at hcontra
      subst hcontra
      exact hmem (by rw [hl]; exact List.mem_cons_self _ _)
  · simpa [formatUint] using hmem

/-- With correct row widths, the check-and-normalize loop succeeds and normalizes every
row. -/
lemma checkAndNormalizeRows_ok (table : Table) :
    ∀ (rowsIn : List RowData),
      (∀ row ∈ rowsIn, row.length = table.columns.length) →
      checkAndNormalizeRows table rowsIn =
        (rowsIn.map (normalizeRow table.columns), none) := by
  intro rowsIn
  induction rowsIn with
  | nil => intro _; rfl
  | cons row rest ih =>
    intro hw
    have hwr : row.length = table.columns.length := hw row (List.mem_cons_self _ _)
    have hrest := ih (fun r hr => hw r (List.mem_cons_of_mem _ hr))
    simp [checkAndNormalizeRows, hwr, hrest]

/-- A row of the wrong width makes the check-and-normalize loop report an error. -/
lemma checkAndNormalizeRows_error (table : Table) :
    ∀ (rowsIn : List RowData) (row : RowData), row ∈ rowsIn →
      row.length ≠ table.columns.length →
      ∃ msg, (checkAndNormalizeRows table rowsIn).2 = some msg := by
  intro rowsIn
  induction rowsIn with
  | nil => intro row hrow _; simp at hrow
  | cons r rest ih =>
    intro row hrow hne
    by_cases hr : table.columns.length ≠ r.length
    · exact ⟨columnsMismatchMsg table r, by simp [checkAndNormalizeRows, hr]⟩
    · push_neg at hr
      rcases List.mem_cons.mp hrow with hrow | hrow
      · subst hrow; omega
      · obtain ⟨msg, hmsg⟩ := ih row hrow hne
        exact ⟨msg, by simp [checkAndNormalizeRows, hr, hmsg]⟩

/-- The update-pairing loop never returns a structured error (only success or a panic). -/
lemma NewBinlogUpdateEventsLoop_no_error (table : Table) (rows : List RowData) :
    ∀ (suffix : List RowData) (i : Nat) (arr evs : List DMLEvent) (msg : String),
      NewBinlogUpdateEventsLoop table rows suffix i arr ≠ .errorWith evs msg := by
  intro suffix
  induction suffix with
  | nil => intro i arr evs msg h; simp [NewBinlogUpdateEventsLoop] at h
  | cons row rest ih =>
    intro i arr evs msg h
    rw [NewBinlogUpdateEventsLoop] at h
    split at h
    · exact ih _ _ _ _ h
    · split at h
      · simp at h
      · split at h
        · exact ih _ _ _ _ h
        · simp at h

/-- On an even-length row list the pairing loop fills the remaining output slots with one
update statement per `(before, after)` pair, in input order. The two conjuncts track the
parity of the loop index (at odd `i` the head of the suffix is the after-image consumed
by the previous step). -/
lemma NewBinlogUpdateEventsLoop_spec (table : Table) (rows : List RowData)
    (hlen : rows.length % 2 = 0) :
    ∀ (suffix : List RowData) (i : Nat) (arr : List DMLEvent),
      suffix = rows.drop i → arr.length = rows.length / 2 →
      (i % 2 = 0 →
        NewBinlogUpdateEventsLoop table rows suffix i arr =
          .ok (arr.take (i / 2) ++ specUpdatePairs table suffix)) ∧
      (i % 2 = 1 →
        NewBinlogUpdateEventsLoop table rows suffix i arr =
          .ok (arr.take ((i + 1) / 2) ++ specUpdatePairs table suffix.tail)) := by
  intro suffix
  induction suffix with
  | nil =>
    intro i arr hdrop harr
    have hle : rows.length ≤ i := by
      by_contra hcon
      push_neg at hcon
      have : rows.drop i ≠ [] := by
        simp [List.drop_eq_nil_iff]
        omega
      exact this hdrop.symm
    have htake : ∀ m : Nat, arr.length ≤ m → arr.take m = arr := fun m hm =>
      List.take_of_length_le hm
    constructor
    · intro _
      simp [NewBinlogUpdateEventsLoop, specUpdatePairs, htake (i / 2) (by omega)]
    · intro _
      simp [NewBinlogUpdateEventsLoop, specUpdatePairs, htake ((i + 1) / 2) (by omega)]
  | cons row rest ih =>
    intro i arr hdrop harr
    have hi : i < rows.length := by
      by_contra hcon
      push_neg at hcon
      rw [List.drop_eq_nil_of_le hcon] at hdrop
      simp at hdrop
    have hrest : rest = rows.drop (i + 1) := by
      rw [← List.tail_drop, ← hdrop]
      rfl
    constructor
    · intro hi2
      have hbeq : (i % 2 == 1) = false := by simp [hi2]
      have hi1 : i + 1 < rows.length := by omega
      cases rest with
      | nil =>
        exfalso
        have : rows.drop (i + 1) ≠ [] := by
          simp [List.drop_eq_nil_iff]
          omega
        exact this hrest.symm
      | cons newRow rest2 =>
        have hget1 : rows.get? (i + 1) = some newRow := by
          have h0 : (rows.drop (i + 1)).get? 0 = some newRow := by rw [← hrest]; rfl
          rw [List.get?_drop] at h0
          simpa using h0
        have hbound : i / 2 < arr.length := by
          rw [harr]; omega
        rw [NewBinlogUpdateEventsLoop, hbeq, if_neg (by simp)]
        simp only [hget1]
        rw [if_pos hbound]
        have harr2 : (arr.set (i / 2) (DMLEvent.BinlogUpdateEvent table row newRow)).length =
            rows.length / 2 := by
          simp [harr]
        have hihodd := (ih (i + 1) _ hrest harr2).2 (by omega)
        rw [hihodd]
        have h2 : (i + 1 + 1) / 2 = i / 2 + 1 := by omega
        have hts : (arr.set (i / 2) (DMLEvent.BinlogUpdateEvent table row newRow)).take
            (i / 2 + 1) = arr.take (i / 2) ++ [DMLEvent.BinlogUpdateEvent table row newRow] := by
          rw [List.set_eq_take_cons_drop _ hbound, List.take_append_eq_append_take]
          have hlt : (arr.take (i / 2)).length = i / 2 := by
            simp [List.length_take]
            omega
          rw [List.take_take, hlt]
          have hm : min (i / 2 + 1) (i / 2) = i / 2 := by omega
          rw [hm]
          norm_num
        rw [h2, hts]
        simp [specUpdatePairs, List.append_assoc]
    · intro hi2
      have hbeq : (i % 2 == 1) = true := by simp [hi2]
      rw [NewBinlogUpdateEventsLoop, hbeq, if_pos (by simp)]
      have hiheven := (ih (i + 1) arr hrest harr).1 (by omega)
      rw [hiheven]
      rfl

/-- On an odd-length row list the pairing loop inevitably reads one past the end of the
rows and panics. -/
lemma NewBinlogUpdateEventsLoop_panic (table : Table) (rows : List RowData)
    (hlen : rows.length % 2 = 1) :
    ∀ (suffix : List RowData) (i : Nat) (arr : List DMLEvent),
      suffix = rows.drop i → arr.length = rows.length / 2 → i < rows.length →
      NewBinlogUpdateEventsLoop table rows suffix i arr = .panicked indexOutOfRangeMsg := by
  intro suffix
  induction suffix with
  | nil =>
    intro i arr hdrop harr hi
    exfalso
    have : rows.drop i ≠ [] := by
      simp [List.drop_eq_nil_iff]
      omega
    exact this hdrop.symm
  | cons row rest ih =>
    intro i arr hdrop harr hi
    have hrest : rest = rows.drop (i + 1) := by
      rw [← List.tail_drop, ← hdrop]
      rfl
    by_cases hi2 : i % 2 = 1
    · have hbeq : (i % 2 == 1) = true := by simp [hi2]
      rw [NewBinlogUpdateEventsLoop, hbeq, if_pos (by simp)]
      exact ih (i + 1) arr hrest harr (by omega)
    · have hieven : i % 2 = 0 := by omega
      have hbeq : (i % 2 == 1) = false := by simp [hieven]
      rw [NewBinlogUpdateEventsLoop, hbeq, if_neg (by simp)]
      by_cases hend : i + 1 < rows.length
      · cases rest with
        | nil =>
          exfalso
          have : rows.drop (i + 1) ≠ [] := by
            simp [List.drop_eq_nil_iff]
            omega
          exact this hrest.symm
        | cons newRow rest2 =>
          have hget1 : rows.get? (i + 1) = some newRow := by
            have h0 : (rows.drop (i + 1)).get? 0 = some newRow := by rw [← hrest]; rfl
            rw [List.get?_drop] at h0
            simpa using h0
          have hbound : i / 2 < arr.length := by
            rw [harr]; omega
          simp only [hget1]
          rw [if_pos hbound]
          exact ih (i + 1) _ hrest (by simp [harr]) (by omega)
      · have hget1 : rows.get? (i + 1) = none := by
          rw [List.get?_eq_none]
          omega
        simp only [hget1]

/-- Two-step list induction (used for the pairwise chunking lemmas). -/
lemma twoStepListInduction {α : Type} {P : List α → Prop} (h0 : P []) (h1 : ∀ x, P [x])
    (h2 : ∀ x y rest, P rest → P (x :: y :: rest)) : ∀ l, P l
  | [] => h0
  | [x] => h1 x
  | x :: y :: rest => h2 x y rest (twoStepListInduction h0 h1 h2 rest)

/-- Length and contents of the spec-side pairing: N statements for 2N rows, statement k
pairing rows 2k and 2k+1. -/
lemma specUpdatePairs_props (table : Table) :
    ∀ (rowsIn : List RowData), rowsIn.length % 2 = 0 →
      (specUpdatePairs table rowsIn).length = rowsIn.length / 2 ∧
      ∀ k, k < rowsIn.length / 2 →
        (specUpdatePairs table rowsIn).get? k =
          some (DMLEvent.BinlogUpdateEvent table (rowsIn.getD (2 * k) [])
            (rowsIn.getD (2 * k + 1) [])) := by
  refine twoStepListInduction ?_ ?_ ?_
  · intro _
    simp [specUpdatePairs]
  · intro x h
    simp at h
  · intro x y rest ih hpar
    have hpar2 : rest.length % 2 = 0 := by
      simp only [List.length_cons] at hpar
      omega
    obtain ⟨ihlen, ihget⟩ := ih hpar2
    constructor
    · simp only [specUpdatePairs, List.length_cons, ihlen]
      omega
    · intro k hk
      cases k with
      | zero => simp [specUpdatePairs, List.getD]
      | succ k =>
        have hk2 : k < rest.length / 2 := by
          simp only [List.length_cons] at hk
          omega
        have := ihget k hk2
        simp only [specUpdatePairs, List.get?_cons_succ, this]
        have e1 : 2 * (k + 1) = 2 * k + 1 + 1 := by omega
        rw [e1]
        simp [List.getD_cons_succ]

/-- The Boolean Go string comparison agrees with lexicographic order on characters. -/
lemma goStringLt_iff : ∀ a b : List Char, goStringLt a b = true ↔ a < b := by
  intro a
  induction a with
  | nil =>
    intro b
    cases b with
    | nil =>
      simp only [goStringLt]
      constructor
      · intro hcon
        exact absurd hcon (by simp)
      · intro hcon
        cases hcon
    | cons y ys =>
      simp only [goStringLt]
      constructor
      · intro _
        exact List.Lex.nil
      · intro _
        trivial
  | cons x xs ih =>
    intro b
    cases b with
    | nil =>
      simp only [goStringLt]
      constructor
      · intro hcon
        exact absurd hcon (by simp)
      · intro hcon
        cases hcon
    | cons y ys =>
      rw [goStringLt]
      by_cases h1 : x < y
      · rw [if_pos h1]
        constructor
        · intro _
          exact List.Lex.rel h1
        · intro _
          rfl
      · by_cases h2 : y < x
        · rw [if_neg h1, if_pos h2]
          constructor
          · intro hcon
            exact absurd hcon (by simp)
          · intro hlt
            exfalso
            cases hlt with
            | rel hr => exact h1 hr
            | cons hc => exact absurd h2 (lt_irrefl x)
        · have hxy : x = y := le_antisymm (not_lt.mp h2) (not_lt.mp h1)
          subst hxy
          rw [if_neg h1, if_neg h2, ih ys]
          constructor
          · intro h
            exact List.Lex.cons h
          · intro h
            cases h with
            | rel hr => exact absurd hr (lt_irrefl x)
            | cons hc => exact hc

/-- Two lists that compare unordered in both directions are equal. -/
lemma goStringLt_eq (a b : List Char) (h1 : goStringLt a b = false)
    (h2 : goStringLt b a = false) : a = b := by
  have ha : ¬ a < b := by
    intro h
    rw [← goStringLt_iff] at h
    simp [h1] at h
  have hb : ¬ b < a := by
    intro h
    rw [← goStringLt_iff] at h
    simp [h2] at h
  exact le_antisymm (not_lt.mp hb) (not_lt.mp ha)

/-- The spec-side ordering: position `p` is reached by `q` iff `q ≥ p` lexicographically
on the file name, then numerically on the offset. -/
def specPositionReached (q p : Position) : Prop :=
  p.name.data < q.name.data ∨ (p.name = q.name ∧ p.pos ≤ q.pos)

/-- The library comparison is nonnegative exactly on reached positions. -/
lemma PositionCompare_nonneg_iff (q p : Position) :
    Position.Compare q p ≥ 0 ↔ specPositionReached q p := by
  rw [Position.Compare, specPositionReached]
  by_cases h1 : goStringLt p.name.data q.name.data
  · rw [if_pos h1]
    constructor
    · intro _
      exact Or.inl ((goStringLt_iff _ _).mp h1)
    · intro _
      norm_num
  · rw [if_neg h1]
    by_cases h2 : goStringLt q.name.data p.name.data
    · rw [if_pos h2]
      constructor
      · intro hcon
        norm_num at hcon
      · intro hcon
        exfalso
        have hlt := (goStringLt_iff _ _).mp h2
        rcases hcon with hcon | ⟨heq, _⟩
        · exact absurd (lt_trans hcon hlt) (lt_irrefl _)
        · rw [heq] at hlt
          exact absurd hlt (lt_irrefl _)
    · have heq : q.name.data = p.name.data :=
        goStringLt_eq _ _ (by simpa using h2) (by simpa using h1)
      have heqn : p.name = q.name := by
        cases p with
        | mk pn pp =>
          cases q with
          | mk qn qp =>
            cases pn
            cases qn
            simp_all
      rw [if_neg h2]
      by_cases h3 : p.pos < q.pos
      · rw [if_pos h3]
        constructor
        · intro _
          exact Or.inr ⟨heqn, le_of_lt h3⟩
        · intro _
          norm_num
      · rw [if_neg h3]
        by_cases h4 : q.pos < p.pos
        · rw [if_pos h4]
          constructor
          · intro hcon
            norm_num at hcon
          · intro hcon
            exfalso
            rcases hcon with hcon | ⟨_, hle⟩
            · rw [heqn] at hcon
              exact absurd hcon (lt_irrefl _)
            · omega
        · rw [if_neg h4]
          constructor
          · intro _
            exact Or.inr ⟨heqn, by omega⟩
          · intro _
            norm_num

/-! Claim theorems. -/

/-- C1: the claim states that a PK cell that is already an unsigned integer of any width
is widened to uint64 and returned without error. On the code this fails: `GetUint64`
sends every non-`[]byte` cell through `reflect.ValueOf(...).Int()`, which panics for the
unsigned kinds, and the translator's own unsigned normalization produces exactly such
cells, so `PK()` panics on an unsigned PK column instead of widening. This theorem
evaluates the code at the failing inputs. -/
theorem c1_pk_unsigned_cell_panics :
    GetUint64 [Value.uint64 5] 0 = .panicked reflectIntPanicMsg ∧
    GetUint64 [Value.uint32 5] 0 = .panicked reflectIntPanicMsg ∧
    GetUint64 [Value.uint16 5] 0 = .panicked reflectIntPanicMsg ∧
    GetUint64 [Value.uint8 5] 0 = .panicked reflectIntPanicMsg ∧
    GetUint64 [Value.goUint 5] 0 = .panicked reflectIntPanicMsg ∧
    (NewBinlogDMLEvents (Table.mk "s" "t" [Column.mk "id" true] [0]) .WRITE_ROWS_EVENTv1
        [[Value.int64 7]]).2 =
      .ok [DMLEvent.BinlogInsertEvent (Table.mk "s" "t" [Column.mk "id" true] [0])
        [Value.uint64 7]] ∧
    DMLEvent.PK (DMLEvent.BinlogInsertEvent (Table.mk "s" "t" [Column.mk "id" true] [0])
      [Value.uint64 7]) = .panicked reflectIntPanicMsg := by
  refine ⟨by decide, by decide, by decide, by decide, by decide, by decide, by decide⟩

/-- C4: an UPDATE rows event with 2N rows in pair order yields exactly N update
statements in input order; statement k has the old image at row 2k and the new image at
row 2k+1. -/
theorem c4_update_pairing (table : Table) (rows : List RowData) (n : Nat)
    (h : rows.length = 2 * n) :
    ∃ evs, NewBinlogUpdateEvents table rows = .ok evs ∧ evs.length = n ∧
      ∀ k, k < n → ∃ ev, evs.get? k = some ev ∧
        ev.OldValues = rows.getD (2 * k) [] ∧ ev.NewValues = rows.getD (2 * k + 1) [] := by
  have hmod : rows.length % 2 = 0 := by omega
  have hloop := (NewBinlogUpdateEventsLoop_spec table rows hmod rows 0
    (List.replicate (rows.length / 2) (DMLEvent.BinlogUpdateEvent table [] []))
    (by simp) (by simp)).1 (by omega)
  refine ⟨specUpdatePairs table rows, ?_, ?_, ?_⟩
  · rw [NewBinlogUpdateEvents, hloop]
    simp
  · have := (specUpdatePairs_props table rows hmod).1
    omega
  · intro k hk
    have hget := (specUpdatePairs_props table rows hmod).2 k (by omega)
    exact ⟨_, hget, rfl, rfl⟩

/-- C4 witness: the theorem applied to a concrete four-row event. -/
theorem c4_update_pairing_witness :
    ([[Value.int64 1], [Value.int64 2], [Value.int64 3], [Value.int64 4]] :
      List RowData).length = 2 * 2 ∧
    ∃ evs, NewBinlogUpdateEvents (Table.mk "s" "t" [Column.mk "id" false] [0])
        [[Value.int64 1], [Value.int64 2], [Value.int64 3], [Value.int64 4]] = .ok evs ∧
      evs.length = 2 ∧ ∀ k, k < 2 → ∃ ev, evs.get? k = some ev ∧
        ev.OldValues = ([[Value.int64 1], [Value.int64 2], [Value.int64 3],
          [Value.int64 4]] : List RowData).getD (2 * k) [] ∧
        ev.NewValues = ([[Value.int64 1], [Value.int64 2], [Value.int64 3],
          [Value.int64 4]] : List RowData).getD (2 * k + 1) [] :=
  ⟨by decide, c4_update_pairing (Table.mk "s" "t" [Column.mk "id" false] [0]) _ 2 (by decide)⟩

/-- C5 counterexample: the claim states an empty byte buffer is rendered like NULL. On
the code only the NIL byte slice is: an empty-but-non-nil buffer is not nil-valued, so
it renders as the binary literal `_binary''` and compares with `=`, dashing the claimed
indistinguishability. -/
theorem c5_counterexample :
    appendEscapedValue "" (Value.bytes (some [])) = "_binary''" ∧
    appendEscapedValue "" Value.null = "NULL" ∧
    appendEscapedValue "" (Value.bytes (some [])) ≠ appendEscapedValue "" Value.null ∧
    buildStringMapForWhere ["`c`"] [Value.bytes (some [])] = .ok "`c`=_binary''" ∧
    isNilValue (Value.bytes (some [])) = false := by
  refine ⟨by decide, by decide, by decide, by decide, by decide⟩

/-- C5 amended: a NULL cell and a NIL byte-buffer cell are exactly the nil-valued
shapes; both render as the literal NULL, contribute `IS NULL` in WHERE position, and
are indistinguishable to the rendering; an empty-but-non-nil byte buffer is not
nil-valued. -/
theorem c5_nil_rendering (buffer colName : String) (v : Value)
    (hv : isNilValue v = true) :
    (v = Value.null ∨ v = Value.bytes none) ∧
    appendEscapedValue buffer v = buffer ++ "NULL" ∧
    whereFragment colName v = colName ++ " IS NULL" ∧
    appendEscapedValue buffer v = appendEscapedValue buffer Value.null ∧
    whereFragment colName v = whereFragment colName Value.null ∧
    isNilValue (Value.bytes (some [])) = false := by
  have hshape : v = Value.null ∨ v = Value.bytes none := by
    cases v
    case null => exact Or.inl rfl
    case bytes b =>
      cases b
      case none => exact Or.inr rfl
      case some l => simp [isNilValue] at hv
    all_goals simp [isNilValue] at hv
  refine ⟨hshape, ?_, ?_, ?_, ?_, by decide⟩ <;>
    rcases hshape with hsh | hsh <;> subst hsh <;>
      simp [appendEscapedValue, whereFragment, isNilValue]

/-- C5 witness: the amended theorem applied to the nil byte buffer. -/
theorem c5_nil_rendering_witness :
    isNilValue (Value.bytes none) = true ∧
    ((Value.bytes none = Value.null ∨ Value.bytes none = Value.bytes none) ∧
      appendEscapedValue "x" (Value.bytes none) = "x" ++ "NULL" ∧
      whereFragment "`c`" (Value.bytes none) = "`c`" ++ " IS NULL" ∧
      appendEscapedValue "x" (Value.bytes none) = appendEscapedValue "x" Value.null ∧
      whereFragment "`c`" (Value.bytes none) = whereFragment "`c`" Value.null ∧
      isNilValue (Value.bytes (some [])) = false) :=
  ⟨by decide, c5_nil_rendering "x" "`c`" (Value.bytes none) (by decide)⟩

/-- C9 counterexample: the claim states the dispatch entry point leaves the event's row
buffers unchanged; the unsigned normalization writes the reinterpreted cell back into the
row buffer, so the buffers do change. -/
theorem c9_counterexample :
    (NewBinlogDMLEvents (Table.mk "s" "t" [Column.mk "id" true] [0]) .WRITE_ROWS_EVENTv1
      [[Value.int64 (-1)]]).1 ≠ [[Value.int64 (-1)]] := by decide

/-- C9 amended: the dispatch entry point normalizes the event's row buffers in place
(afterwards they hold the unsigned-normalized rows), and the returned statement objects
are built from those normalized buffers; the translation keeps no other state. -/
theorem c9_rows_normalized_in_place (table : Table) (eventType : EventType)
    (rows : List RowData) (h : ∀ row ∈ rows, row.length = table.columns.length) :
    (NewBinlogDMLEvents table eventType rows).1 = rows.map (normalizeRow table.columns) ∧
    ((eventType = .WRITE_ROWS_EVENTv1 ∨ eventType = .WRITE_ROWS_EVENTv2) →
      (NewBinlogDMLEvents table eventType rows).2 =
        .ok ((rows.map (normalizeRow table.columns)).map
          (DMLEvent.BinlogInsertEvent table))) := by
  have hnorm := checkAndNormalizeRows_ok table rows h
  constructor
  · cases eventType <;> simp [NewBinlogDMLEvents, hnorm]
  · intro hins
    rcases hins with h1 | h1 <;> subst h1 <;>
      simp [NewBinlogDMLEvents, hnorm, NewBinlogInsertEvents]

/-- C9 witness: the amended theorem applied to the mutating input of the counterexample. -/
theorem c9_rows_normalized_in_place_witness :
    (∀ row ∈ ([[Value.int64 (-1)]] : List RowData),
      row.length = (Table.mk "s" "t" [Column.mk "id" true] [0]).columns.length) ∧
    (NewBinlogDMLEvents (Table.mk "s" "t" [Column.mk "id" true] [0]) .WRITE_ROWS_EVENTv1
        [[Value.int64 (-1)]]).1 =
      ([[Value.int64 (-1)]] : List RowData).map
        (normalizeRow (Table.mk "s" "t" [Column.mk "id" true] [0]).columns) :=
  ⟨by decide, (c9_rows_normalized_in_place (Table.mk "s" "t" [Column.mk "id" true] [0])
    .WRITE_ROWS_EVENTv1 [[Value.int64 (-1)]] (by decide)).1⟩

/-- C10: an UPDATE rows event with an odd row count makes the pairing loop read one past
the end of the rows (and address one past the end of its rows/2-slot output); the
function panics rather than returning a structured error. -/
theorem c10_odd_update_rows_panic (table : Table) (rows : List RowData)
    (h : rows.length % 2 = 1) :
    NewBinlogUpdateEvents table rows = .panicked indexOutOfRangeMsg ∧
    ∀ (evs : List DMLEvent) (msg : String),
      NewBinlogUpdateEvents table rows ≠ .errorWith evs msg := by
  have hpanic := NewBinlogUpdateEventsLoop_panic table rows h rows 0
    (List.replicate (rows.length / 2) (DMLEvent.BinlogUpdateEvent table [] []))
    (by simp) (by simp) (by omega)
  constructor
  · rw [NewBinlogUpdateEvents]
    exact hpanic
  · intro evs msg hcon
    rw [NewBinlogUpdateEvents, hpanic] at hcon
    simp at hcon

/-- C10 witness: the theorem applied to a concrete single-row UPDATE event. -/
theorem c10_odd_update_rows_panic_witness :
    ([[Value.int64 1]] : List RowData).length % 2 = 1 ∧
    NewBinlogUpdateEvents (Table.mk "s" "t" [Column.mk "id" false] [0]) [[Value.int64 1]] =
      .panicked indexOutOfRangeMsg :=
  ⟨by decide, (c10_odd_update_rows_panic (Table.mk "s" "t" [Column.mk "id" false] [0])
    [[Value.int64 1]] (by decide)).1⟩

/-- Euclidean remainder by 2^w is the value below 2^w congruent to the input: the
width-w bit pattern of the signed integer. -/
lemma emod_toNat_spec (n : Int) (w : Nat) :
    (n % (2 : Int) ^ w).toNat < 2 ^ w ∧
      (((n % (2 : Int) ^ w).toNat : Int) - n) % (2 : Int) ^ w = 0 := by
  have hpos : (0 : Int) < 2 ^ w := by positivity
  have h1 : 0 ≤ n % 2 ^ w := Int.emod_nonneg n (by omega)
  have h2 : n % 2 ^ w < 2 ^ w := Int.emod_lt_of_pos n hpos
  have h3 : ((n % (2 : Int) ^ w).toNat : Int) = n % 2 ^ w := Int.toNat_of_nonneg h1
  constructor
  · have hc : ((2 ^ w : Nat) : Int) = (2 : Int) ^ w := by push_cast; ring
    omega
  · rw [h3]
    simp [Int.sub_emod, Int.emod_emod_of_dvd]

/-- An unsigned-shaped cell renders as the decimal digits of its widened value. -/
lemma escape_uint_shape (v : Value) (m : Nat) (hm : Uint64Value v = some m) :
    appendEscapedValue "" v = formatUint m := by
  have hnil : isNilValue v = false := by
    cases v <;> simp_all [Uint64Value, isNilValue]
  simp [appendEscapedValue, hnil, hm, String.empty_append]

/-- In an unsigned column, normalization leaves every integer cell unsigned-shaped. -/
lemma normalizeCell_unsigned_integer (col : Column) (hcol : col.isUnsigned = true)
    (v : Value) (hv : isIntegerValue v = true) :
    ∃ m : Nat, Uint64Value (normalizeCell col v) = some m := by
  cases v <;> simp_all [isIntegerValue, normalizeCell, Uint64Value, hcol]

/-- `NewBinlogUpdateEvents` never returns a structured error. -/
lemma NewBinlogUpdateEvents_no_error (table : Table) (rows : List RowData)
    (evs : List DMLEvent) (msg : String) :
    NewBinlogUpdateEvents table rows ≠ .errorWith evs msg := by
  rw [NewBinlogUpdateEvents]
  exact NewBinlogUpdateEventsLoop_no_error table rows rows 0 _ evs msg

/-- C2: the WHERE list of an UPDATE is built per column as `col IS NULL` for a nil-valued
old cell and `col=<literal>` otherwise; the full statement takes its SET list from the
projected new image and its WHERE list from the projected old image; and the concrete
scenario with old row (1, NULL) and new row (1, "a") renders exactly the claimed SQL. -/
theorem c2_update_set_new_where_old :
    (∀ (columns : List String) (values : List Value), values.length ≤ columns.length →
      buildStringMapForWhere columns values =
        .ok (joinWithAnd (List.zipWith whereFragment columns values))) ∧
    (∀ (colName : String) (v : Value), isNilValue v = true →
      whereFragment colName v = colName ++ " IS NULL") ∧
    (∀ (table intersection : Table) (oldValues newValues : RowData),
      table.columns.length ≠ 0 → intersection.columns.length ≠ 0 →
      oldValues.length = table.columns.length → newValues.length = table.columns.length →
      binlogUpdateAsSQLString table oldValues newValues intersection =
        .ok ("UPDATE " ++ QuotedTableNameFromString intersection.schema intersection.name ++
          " SET " ++ joinWithComma (List.zipWith setFragment
            (specIntersectionNames table.columns intersection.columns)
            (specProjectRow table.columns intersection.columns newValues)) ++
          " WHERE " ++ joinWithAnd (List.zipWith whereFragment
            (specIntersectionNames table.columns intersection.columns)
            (specProjectRow table.columns intersection.columns oldValues)))) ∧
    binlogUpdateAsSQLString
      (Table.mk "s" "t" [Column.mk "id" false, Column.mk "name" false] [0])
      [Value.int64 1, Value.null] [Value.int64 1, Value.str "a"]
      (Table.mk "s" "t" [Column.mk "id" false, Column.mk "name" false] [0]) =
      .ok "UPDATE `s`.`t` SET `id`=1,`name`='a' WHERE `id`=1 AND `name` IS NULL" := by
  refine ⟨buildStringMapForWhere_spec, ?_, ?_, by decide⟩
  · intro colName v hv
    simp [whereFragment, hv]
  · intro table intersection oldValues newValues h1 h2 hol hnl
    have hload := loadColumns_spec table intersection [oldValues, newValues] h1 h2 ?hw
    case hw =>
      intro row hrow
      rcases List.mem_cons.mp hrow with hr | hr
      · subst hr; exact hol
      · simp at hr; subst hr; exact hnl
    have hlen : ∀ row : RowData,
        (specProjectRow table.columns intersection.columns row).length =
          (specIntersectionNames table.columns intersection.columns).length := by
      intro row
      simp [specProjectRow, specIntersectionNames]
    rw [binlogUpdateAsSQLString]
    simp only [hload, List.map_cons, List.map_nil, List.get?_cons_succ, List.get?_cons_zero,
      buildStringMapForSet_spec (specIntersectionNames table.columns intersection.columns)
        (specProjectRow table.columns intersection.columns newValues)
        (le_of_eq (hlen newValues)),
      buildStringMapForWhere_spec (specIntersectionNames table.columns intersection.columns)
        (specProjectRow table.columns intersection.columns oldValues)
        (le_of_eq (hlen oldValues))]

/-- C2 witness: the general statement applied to a concrete nil-valued column. -/
theorem c2_update_set_new_where_old_witness :
    ([Value.null] : List Value).length ≤ (["`name`"] : List String).length ∧
    buildStringMapForWhere ["`name`"] [Value.null] =
      .ok (joinWithAnd (List.zipWith whereFragment ["`name`"] [Value.null])) :=
  ⟨by decide, c2_update_set_new_where_old.1 ["`name`"] [Value.null] (by decide)⟩

/-- C3: in an unsigned column each signed-integer cell of width W is reinterpreted as
the width-W unsigned value with the same bit pattern (below 2^W and congruent mod 2^W);
any integer cell of that column renders with no leading (indeed no) minus sign; and the
int64(-1) cell of an unsigned BIGINT column renders in the INSERT statement as
18446744073709551615. -/
theorem c3_unsigned_normalization (col : Column) (hcol : col.isUnsigned = true) :
    (∀ n : Int, ∃ m : Nat, normalizeCell col (Value.int64 n) = Value.uint64 m ∧
      m < 2 ^ 64 ∧ ((m : Int) - n) % 2 ^ 64 = 0) ∧
    (∀ n : Int, ∃ m : Nat, normalizeCell col (Value.int32 n) = Value.uint32 m ∧
      m < 2 ^ 32 ∧ ((m : Int) - n) % 2 ^ 32 = 0) ∧
    (∀ n : Int, ∃ m : Nat, normalizeCell col (Value.int16 n) = Value.uint16 m ∧
      m < 2 ^ 16 ∧ ((m : Int) - n) % 2 ^ 16 = 0) ∧
    (∀ n : Int, ∃ m : Nat, normalizeCell col (Value.int8 n) = Value.uint8 m ∧
      m < 2 ^ 8 ∧ ((m : Int) - n) % 2 ^ 8 = 0) ∧
    (∀ n : Int, ∃ m : Nat, normalizeCell col (Value.goInt n) = Value.goUint m ∧
      m < 2 ^ 64 ∧ ((m : Int) - n) % 2 ^ 64 = 0) ∧
    (∀ v : Value, isIntegerValue v = true →
      (appendEscapedValue "" (normalizeCell col v)).data.head? ≠ some '-' ∧
      '-' ∉ (appendEscapedValue "" (normalizeCell col v)).data) ∧
    (NewBinlogDMLEvents (Table.mk "s" "t" [Column.mk "id" true] [0]) .WRITE_ROWS_EVENTv1
        [[Value.int64 (-1)]]).2 =
      .ok [DMLEvent.BinlogInsertEvent (Table.mk "s" "t" [Column.mk "id" true] [0])
        [Value.uint64 18446744073709551615]] ∧
    binlogInsertAsSQLString (Table.mk "s" "t" [Column.mk "id" true] [0])
      [Value.uint64 18446744073709551615] (Table.mk "s" "t" [Column.mk "id" true] [0]) =
      .ok "INSERT IGNORE INTO `s`.`t` (`id`) VALUES (18446744073709551615)" := by
  refine ⟨?_, ?_, ?_, ?_, ?_, ?_, by decide, by decide⟩
  · intro n
    exact ⟨(n % (2 : Int) ^ 64).toNat, by simp [normalizeCell, hcol],
      (emod_toNat_spec n 64).1, (emod_toNat_spec n 64).2⟩
  · intro n
    exact ⟨(n % (2 : Int) ^ 32).toNat, by simp [normalizeCell, hcol],
      (emod_toNat_spec n 32).1, (emod_toNat_spec n 32).2⟩
  · intro n
    exact ⟨(n % (2 : Int) ^ 16).toNat, by simp [normalizeCell, hcol],
      (emod_toNat_spec n 16).1, (emod_toNat_spec n 16).2⟩
  · intro n
    exact ⟨(n % (2 : Int) ^ 8).toNat, by simp [normalizeCell, hcol],
      (emod_toNat_spec n 8).1, (emod_toNat_spec n 8).2⟩
  · intro n
    exact ⟨(n % (2 : Int) ^ 64).toNat, by simp [normalizeCell, hcol],
      (emod_toNat_spec n 64).1, (emod_toNat_spec n 64).2⟩
  · intro v hv
    obtain ⟨m, hm⟩ := normalizeCell_unsigned_integer col hcol v hv
    rw [escape_uint_shape _ _ hm]
    exact formatUint_no_minus m

/-- C3 witness: the theorem applied to an unsigned BIGINT column and the cell -1. -/
theorem c3_unsigned_normalization_witness :
    (Column.mk "id" true).isUnsigned = true ∧
    (∃ m : Nat, normalizeCell (Column.mk "id" true) (Value.int64 (-1)) = Value.uint64 m ∧
      m < 2 ^ 64 ∧ ((m : Int) - (-1)) % 2 ^ 64 = 0) :=
  ⟨rfl, (c3_unsigned_normalization (Column.mk "id" true) rfl).1 (-1)⟩

/-- C6 counterexample: the claim states an empty source/intersection column list is
surfaced per event as a structured error; in the code it is a panic (a loud abort), not
an error returned to the caller. -/
theorem c6_counterexample :
    DMLEvent.AsSQLString (DMLEvent.BinlogInsertEvent
        (Table.mk "s" "t" [Column.mk "a" false] [0]) [Value.int64 1])
      (Table.mk "s" "t" [] []) = .panicked "zero columns: table: 1, intersection: 0" ∧
    ¬ ∃ (s msg : String), DMLEvent.AsSQLString (DMLEvent.BinlogInsertEvent
        (Table.mk "s" "t" [Column.mk "a" false] [0]) [Value.int64 1])
      (Table.mk "s" "t" [] []) = .errorWith s msg := by
  have h : DMLEvent.AsSQLString (DMLEvent.BinlogInsertEvent
      (Table.mk "s" "t" [Column.mk "a" false] [0]) [Value.int64 1])
      (Table.mk "s" "t" [] []) = .panicked "zero columns: table: 1, intersection: 0" := by
    decide
  refine ⟨h, ?_⟩
  rintro ⟨s, msg, hcon⟩
  rw [h] at hcon
  simp at hcon

/-- C6 amended: a row-width mismatch is surfaced per event as a structured error and the
failing event yields only the error (the statement list returned alongside any error is
empty, and a failing AsSQLString returns only the error with an empty string); an empty
source or intersection column list, however, panics instead of returning an error. -/
theorem c6_schema_mismatch_errors :
    (∀ (table : Table) (eventType : EventType) (rows : List RowData) (badRow : RowData),
      badRow ∈ rows → badRow.length ≠ table.columns.length →
      ∃ msg, (NewBinlogDMLEvents table eventType rows).2 = .errorWith [] msg) ∧
    (∀ (table : Table) (eventType : EventType) (rows : List RowData)
      (evs : List DMLEvent) (msg : String),
      (NewBinlogDMLEvents table eventType rows).2 = .errorWith evs msg → evs = []) ∧
    (∀ (ev : DMLEvent) (intersection : Table) (s msg : String),
      DMLEvent.AsSQLString ev intersection = .errorWith s msg → s = "") ∧
    (∀ (table intersection : Table) (rowsV : List RowData),
      table.columns.length = 0 ∨ intersection.columns.length = 0 →
      loadColumnsAndValuesInIntersection table intersection rowsV =
        .panicked (zeroColumnsMsg table intersection)) := by
  refine ⟨?_, ?_, ?_, ?_⟩
  · intro table eventType rows badRow hmem hne
    obtain ⟨msg, hmsg⟩ := checkAndNormalizeRows_error table rows badRow hmem hne
    exact ⟨msg, by simp [NewBinlogDMLEvents, hmsg]⟩
  · intro table eventType rows evs msg h
    simp only [NewBinlogDMLEvents] at h
    split at h
    · simp at h
      exact h.1
    · cases eventType
      case UPDATE_ROWS_EVENTv1 =>
        exact absurd h (NewBinlogUpdateEvents_no_error _ _ _ _)
      case UPDATE_ROWS_EVENTv2 =>
        exact absurd h (NewBinlogUpdateEvents_no_error _ _ _ _)
      case unrecognized tag =>
        simp at h
        exact h.1
      all_goals simp [NewBinlogInsertEvents, NewBinlogDeleteEvents] at h
  · intro ev intersection s msg h
    cases ev
    case BinlogInsertEvent table newValues =>
      simp only [DMLEvent.AsSQLString] at h
      rw [binlogInsertAsSQLString] at h
      repeat' split at h
      all_goals simp_all
    case BinlogUpdateEvent table oldValues newValues =>
      simp only [DMLEvent.AsSQLString] at h
      rw [binlogUpdateAsSQLString] at h
      repeat' split at h
      all_goals simp_all
    case BinlogDeleteEvent table oldValues =>
      simp only [DMLEvent.AsSQLString] at h
      rw [binlogDeleteAsSQLString] at h
      repeat' split at h
      all_goals simp_all
  · intro table intersection rowsV h
    rw [loadColumnsAndValuesInIntersection, if_pos h]

/-- C6 witness: the width-mismatch part applied to a concrete one-cell row against a
two-column table. -/
theorem c6_schema_mismatch_errors_witness :
    ([Value.int64 1] : RowData) ∈ ([[Value.int64 1]] : List RowData) ∧
    ([Value.int64 1] : RowData).length ≠
      (Table.mk "s" "t" [Column.mk "a" false, Column.mk "b" false] [0]).columns.length ∧
    ∃ msg, (NewBinlogDMLEvents (Table.mk "s" "t" [Column.mk "a" false, Column.mk "b" false]
      [0]) .WRITE_ROWS_EVENTv1 [[Value.int64 1]]).2 = .errorWith [] msg :=
  ⟨by decide, by decide, c6_schema_mismatch_errors.1
    (Table.mk "s" "t" [Column.mk "a" false, Column.mk "b" false] [0]) .WRITE_ROWS_EVENTv1
    [[Value.int64 1]] [Value.int64 1] (by decide) (by decide)⟩

/-- C7: the intersection projection keeps exactly the source columns whose names appear
in the intersection schema (quoted, preserving source order), reduces each provided row
image to the cells at those source indices, and the concrete scenario with source
columns (a, b, c), intersection (a, c) and row (1, 2, 3) renders the claimed INSERT. -/
theorem c7_intersection_projection :
    (∀ (table intersection : Table) (rowsIn : List RowData),
      table.columns.length ≠ 0 → intersection.columns.length ≠ 0 →
      (∀ row ∈ rowsIn, row.length = table.columns.length) →
      loadColumnsAndValuesInIntersection table intersection rowsIn =
        .ok (specIntersectionNames table.columns intersection.columns,
          rowsIn.map (specProjectRow table.columns intersection.columns))) ∧
    binlogInsertAsSQLString
      (Table.mk "s" "t" [Column.mk "a" false, Column.mk "b" false, Column.mk "c" false] [0])
      [Value.int64 1, Value.int64 2, Value.int64 3]
      (Table.mk "s" "t" [Column.mk "a" false, Column.mk "c" false] [0]) =
      .ok "INSERT IGNORE INTO `s`.`t` (`a`,`c`) VALUES (1,3)" := by
  exact ⟨loadColumns_spec, by decide⟩

/-- C7 witness: the projection applied to the concrete three-column scenario. -/
theorem c7_intersection_projection_witness :
    ((Table.mk "s" "t" [Column.mk "a" false, Column.mk "b" false, Column.mk "c" false]
      [0]).columns.length ≠ 0) ∧
    loadColumnsAndValuesInIntersection
      (Table.mk "s" "t" [Column.mk "a" false, Column.mk "b" false, Column.mk "c" false] [0])
      (Table.mk "s" "t" [Column.mk "a" false, Column.mk "c" false] [0])
      [[Value.int64 1, Value.int64 2, Value.int64 3]] =
      .ok (specIntersectionNames
        [Column.mk "a" false, Column.mk "b" false, Column.mk "c" false]
        [Column.mk "a" false, Column.mk "c" false],
        ([[Value.int64 1, Value.int64 2, Value.int64 3]] : List RowData).map
          (specProjectRow [Column.mk "a" false, Column.mk "b" false, Column.mk "c" false]
            [Column.mk "a" false, Column.mk "c" false])) :=
  ⟨by decide, c7_intersection_projection.1
    (Table.mk "s" "t" [Column.mk "a" false, Column.mk "b" false, Column.mk "c" false] [0])
    (Table.mk "s" "t" [Column.mk "a" false, Column.mk "c" false] [0])
    [[Value.int64 1, Value.int64 2, Value.int64 3]] (by decide) (by decide) (by decide)⟩

/-- C8: for every recorded target position and every successful replica fetch, the
caught-up check returns true exactly when the fetched replicated master position reaches
the target under the order lexicographic on file name then numeric on offset, and false
exactly otherwise. -/
theorem c8_is_caught_up (target q : Position) (fetchResult : Except String Position)
    (h : fetchResult = .ok q) :
    (IsCaughtUp target fetchResult = .ok true ↔ specPositionReached q target) ∧
    (IsCaughtUp target fetchResult = .ok false ↔ ¬ specPositionReached q target) := by
  subst h
  rw [IsCaughtUp]
  by_cases hc : Position.Compare q target ≥ 0
  · rw [if_pos hc]
    constructor
    · exact ⟨fun _ => (PositionCompare_nonneg_iff q target).mp hc, fun _ => rfl⟩
    · constructor
      · intro hcon
        simp at hcon
      · intro hcon
        exact absurd ((PositionCompare_nonneg_iff q target).mp hc) hcon
  · rw [if_neg hc]
    constructor
    · constructor
      · intro hcon
        simp at hcon
      · intro hcon
        exact absurd ((PositionCompare_nonneg_iff q target).mpr hcon) hc
    · exact ⟨fun _ hcon => hc ((PositionCompare_nonneg_iff q target).mpr hcon),
        fun _ => rfl⟩

/-- C8 witness: the theorem applied to the spec's concrete catch-up scenario. -/
theorem c8_is_caught_up_witness :
    ((Except.ok (Position.mk "mysql-bin.000007" 5000) : Except String Position) =
      Except.ok (Position.mk "mysql-bin.000007" 5000)) ∧
    ((IsCaughtUp (Position.mk "mysql-bin.000007" 4096)
        (Except.ok (Position.mk "mysql-bin.000007" 5000)) = .ok true ↔
      specPositionReached (Position.mk "mysql-bin.000007" 5000)
        (Position.mk "mysql-bin.000007" 4096)) ∧
      (IsCaughtUp (Position.mk "mysql-bin.000007" 4096)
        (Except.ok (Position.mk "mysql-bin.000007" 5000)) = .ok false ↔
      ¬ specPositionReached (Position.mk "mysql-bin.000007" 5000)
        (Position.mk "mysql-bin.000007" 4096))) :=
  ⟨rfl, c8_is_caught_up (Position.mk "mysql-bin.000007" 4096)
    (Position.mk "mysql-bin.000007" 5000)
    (Except.ok (Position.mk "mysql-bin.000007" 5000)) rfl⟩
